import Mathlib

/-!
Shallow embedding of the DevCatalyst repository's concurrency core and
Mandelbrot helper, with theorems checking the natural-language spec.

Source files:
* `src/unnamed/part_001` — `ProducerConsumerQueue<T>`: a bounded FIFO queue
  guarded by a mutex and two condition variables.  `push` waits on the
  predicate `q_.size() < max_size_`, then appends; `pop` waits on
  `!q_.empty()`, then removes the front.  There is no closed flag.
* `src/unnamed/part_000` — `ThreadPool`: an unbounded task queue with a
  `stop` flag.  `enqueue` throws if `stop` is set, otherwise appends.
  Each worker waits until `stop || !tasks.empty()`; if `stop && tasks.empty()`
  it exits, otherwise it pops the front task and runs it (with no
  surrounding try/catch).  The destructor sets `stop = true`, notifies all,
  and joins every worker.
* `src/cpp_guide_945d0d.cpp` — `mandelbrotIterations`: the escape-time loop
  `z = z^2 + c` with `MAX_ITERATIONS = 100` and escape test `abs(z) > 2.0`.

Mutex-protected critical sections are modelled as atomic state transitions;
a condition-variable wait whose predicate is false is modelled as the
operation being disabled (blocked) in that state.
-/

namespace DevCatalyst

/-! ## ProducerConsumerQueue (src/unnamed/part_001) -/

/-- State of `ProducerConsumerQueue<T>`: the underlying `std::queue<T> q_`
(front of the queue at the head of the list) and the capacity `max_size_`. -/
structure PCQ (T : Type) where
  q : List T
  max_size : Nat
  deriving Repr, DecidableEq

namespace PCQ

/-- The `cv_full_.wait` predicate of `push` (line 53):
`q_.size() < max_size_`.  `push` proceeds only once this is true;
while it is false the producer stays blocked. -/
def canPush {T : Type} (s : PCQ T) : Bool :=
  s.q.length < s.max_size

/-- Effect of `push` once its wait predicate holds: `q_.push(item)` appends
at the tail (lines 57-58). -/
def push {T : Type} (s : PCQ T) (item : T) : PCQ T :=
  { s with q := s.q ++ [item] }

/-- The `cv_empty_.wait` predicate of `pop` (line 79): `!q_.empty()`. -/
def canPop {T : Type} (s : PCQ T) : Bool :=
  !s.q.isEmpty

/-- Effect of `pop` (lines 83-92): take `q_.front()`, `q_.pop()`, return the
item.  `none` models the state in which `pop` is blocked (empty queue). -/
def popFn {T : Type} (s : PCQ T) : Option (T × PCQ T) :=
  match s.q with
  | [] => none
  | x :: rest => some (x, { s with q := rest })

/-- Pushing a whole list, one `push` at a time. -/
def pushList {T : Type} (s : PCQ T) : List T → PCQ T
  | [] => s
  | x :: xs => pushList (push s x) xs

/-- Every `push` in the sequence finds its wait predicate true at its turn,
i.e. the whole sequence of pushes completes without blocking. -/
def pushesEnabled {T : Type} (s : PCQ T) : List T → Bool
  | [] => true
  | x :: xs => canPush s && pushesEnabled (push s x) xs

/-- `n` successive `pop`s: the list of items returned and the final state.
A blocked `pop` (empty queue) stops the sequence. -/
def popN {T : Type} : Nat → PCQ T → List T × PCQ T
  | 0, s => ([], s)
  | n + 1, s =>
    match popFn s with
    | none => ([], s)
    | some (x, s') =>
      let r := popN n s'
      (x :: r.1, r.2)

/-- One observable transition of the queue: a producer completes a `push`
(enabled only when the wait predicate holds) or a consumer completes a
`pop` (enabled only when the queue is nonempty). -/
inductive Step {T : Type} : PCQ T → PCQ T → Prop
  | push (s : PCQ T) (x : T) (h : canPush s = true) : Step s (push s x)
  | pop (s : PCQ T) (x : T) (s' : PCQ T) (h : popFn s = some (x, s')) : Step s s'

/-- Reachability from a state by any finite sequence of completed
pushes and pops. -/
def Reachable {T : Type} : PCQ T → PCQ T → Prop :=
  Relation.ReflTransGen Step

end PCQ

/-! ## ThreadPool (src/unnamed/part_000) -/

/-- The error thrown by `ThreadPool::enqueue` on a stopped pool
(`std::runtime_error("enqueue on stopped ThreadPool")`, line 84), which the
spec calls `ClosedError`. -/
inductive PoolError where
  | closed
  deriving Repr, DecidableEq

/-- State of `ThreadPool` shared between the workers and the callers:
the task queue `tasks` (front at the head) and the `stop` flag.
Worker thread handles and the synchronization primitives are modelled by
the step functions below, not stored. -/
structure ThreadPool (τ : Type) where
  tasks : List τ
  stop : Bool
  deriving Repr, DecidableEq

namespace ThreadPool

/-- `ThreadPool::enqueue` (lines 77-92): under the lock, if `stop` is set it
throws and the queue is untouched; otherwise the task is appended at the
tail.  The function is total — `enqueue` performs no condition-variable
wait, so it never blocks. -/
def enqueue {τ : Type} (s : ThreadPool τ) (f : τ) :
    ThreadPool τ × Option PoolError :=
  if s.stop then (s, some PoolError.closed)
  else ({ s with tasks := s.tasks ++ [f] }, none)

/-- What a worker observes inside its locked region. -/
inductive PopResult (τ : Type) where
  /-- A task was taken from the front of the queue. -/
  | item (t : τ) (s' : ThreadPool τ)
  /-- `stop && tasks.empty()`: the worker returns (spec: `ClosedError`). -/
  | closed
  /-- `!stop && tasks.empty()`: the wait predicate is false, the worker
  stays blocked on the condition variable. -/
  | blocked
  deriving Repr, DecidableEq

/-- The worker's locked region (lines 30-47): wait until
`stop || !tasks.empty()`; then if `stop && tasks.empty()` exit, otherwise
take `tasks.front()` and `tasks.pop()`. -/
def workerPop {τ : Type} (s : ThreadPool τ) : PopResult τ :=
  match s.tasks with
  | t :: rest => PopResult.item t { s with tasks := rest }
  | [] => if s.stop then PopResult.closed else PopResult.blocked

/-- The closing half of `~ThreadPool` (lines 60-64): under the lock set
`stop = true`, then `notify_all`. -/
def close {τ : Type} (s : ThreadPool τ) : ThreadPool τ :=
  { s with stop := true }

/-- `K` successive worker pops: the tasks taken, in order, and the final
state.  A `closed` or `blocked` outcome ends the sequence. -/
def popK {τ : Type} : Nat → ThreadPool τ → List τ × ThreadPool τ
  | 0, s => ([], s)
  | n + 1, s =>
    match workerPop s with
    | PopResult.item t s' =>
      let r := popK n s'
      (t :: r.1, r.2)
    | _ => ([], s)

end ThreadPool

/-! ## Worker pool shutdown (src/unnamed/part_000, destructor + worker loop)

After `~ThreadPool` sets `stop`, each of the `N` workers repeatedly runs its
locked region: while tasks remain any worker takes the front one, and a
worker that sees `stop && tasks.empty()` exits.  All workers run the same
code, so which worker acts next does not change what happens to the queue;
one deterministic step function captures every interleaving. -/

/-- Global state during shutdown: the shared pool state, the number of
worker threads still live, and the tasks executed so far (in order). -/
structure PoolState (τ : Type) where
  chan : ThreadPool τ
  live : Nat
  executed : List τ
  deriving Repr, DecidableEq

/-- One worker passes through its locked region: it either takes and runs
the front task, or (on `stop && empty`) exits its loop. -/
def poolStep {τ : Type} (s : PoolState τ) : PoolState τ :=
  match ThreadPool.workerPop s.chan with
  | ThreadPool.PopResult.item t c' =>
    { chan := c', live := s.live, executed := s.executed ++ [t] }
  | ThreadPool.PopResult.closed =>
    { s with live := s.live - 1 }
  | ThreadPool.PopResult.blocked => s

/-- `n` successive worker passes. -/
def poolStepN {τ : Type} : Nat → PoolState τ → PoolState τ
  | 0, s => s
  | n + 1, s => poolStepN n (poolStep s)

/-! ## Task execution inside the worker loop (src/unnamed/part_000, line 52)

The worker executes `task();` with no surrounding try/catch, so the outcome
of the task body — normal return or a raised fault — is the outcome of that
statement of the loop body. -/

/-- A fault raised by a task body (identified by a code). -/
structure Fault where
  code : Nat
  deriving Repr, DecidableEq

/-- A task as the worker sees it: a zero-argument callable whose body either
returns normally or raises a fault. -/
abbrev Task : Type := Unit → Except Fault Unit

/-- The worker loop over the tasks it will pop, after the queue's
handed-over order is fixed: each iteration executes `task();` unguarded
(line 52), so a raised fault propagates out of the `for (;;)` loop and ends
the thread.  Returns how many tasks were executed and the fault that
escaped, if any. -/
def workerRun : List Task → Nat × Option Fault
  | [] => (0, none)
  | t :: rest =>
    match t () with
    | Except.ok _ =>
      let r := workerRun rest
      (r.1 + 1, r.2)
    | Except.error e => (1, some e)

/-! ## Mandelbrot escape-time loop (src/cpp_guide_945d0d.cpp)

`mandelbrotIterations` uses `std::complex<double>`; the model computes the
same iteration `z = z^2 + c` and the same escape test `abs(z) > 2.0` in
exact rational arithmetic (`abs(z) > 2` is compared as `normSq z > 4`).
The claims checked here concern the loop structure — termination bound,
range of the result, and when each value is returned — which do not depend
on the rounding of the arithmetic. -/

/-- A complex number as a pair of (exact) rational coordinates. -/
structure QComplex where
  re : ℚ
  im : ℚ
  deriving Repr, DecidableEq

namespace QComplex

/-- Complex multiplication. -/
def mul (a b : QComplex) : QComplex :=
  ⟨a.re * b.re - a.im * b.im, a.re * b.im + a.im * b.re⟩

/-- Complex addition. -/
def add (a b : QComplex) : QComplex :=
  ⟨a.re + b.re, a.im + b.im⟩

/-- Squared magnitude; `abs z > 2` iff `normSq z > 4`. -/
def normSq (a : QComplex) : ℚ :=
  a.re * a.re + a.im * a.im

/-- One loop iteration's update: `z = std::pow(z, 2) + c` (line 45). -/
def step (c z : QComplex) : QComplex :=
  add (mul z z) c

/-- The value of `z` after `n` executions of the update, starting from
`z = 0` (line 38). -/
def orbit (c : QComplex) : Nat → QComplex
  | 0 => ⟨0, 0⟩
  | n + 1 => step c (orbit c n)

end QComplex

/-- `MAX_ITERATIONS = 100` (line 31). -/
def MAX_ITERATIONS : Nat := 100

/-- The `for` loop of `mandelbrotIterations` (lines 42-55): at index `i`
update `z` and return `i` if `abs(z) > 2.0`; after the last index return
`MAX_ITERATIONS`.  `fuel` counts the remaining indices. -/
def mandelAux (c : QComplex) : QComplex → Nat → Nat → Nat
  | _, _, 0 => MAX_ITERATIONS
  | z, i, fuel + 1 =>
    let z' := QComplex.step c z
    if 4 < QComplex.normSq z' then i
    else mandelAux c z' (i + 1) fuel

/-- `mandelbrotIterations` (lines 36-59). -/
def mandelbrotIterations (c : QComplex) : Nat :=
  mandelAux c ⟨0, 0⟩ 0 MAX_ITERATIONS

end DevCatalyst

namespace DevCatalyst

/-! ### Basic lemmas about the queue model -/

theorem PCQ.push_max_size {T : Type} (s : PCQ T) (x : T) :
    (PCQ.push s x).max_size = s.max_size := rfl

theorem PCQ.popFn_max_size {T : Type} {s s' : PCQ T} {x : T}
    (h : PCQ.popFn s = some (x, s')) : s'.max_size = s.max_size := by
  cases hq : s.q with
  | nil => simp [PCQ.popFn, hq] at h
  | cons a rest =>
    simp [PCQ.popFn, hq] at h
    rw [← h.2]

theorem PCQ.popFn_length {T : Type} {s s' : PCQ T} {x : T}
    (h : PCQ.popFn s = some (x, s')) : s'.q.length + 1 = s.q.length := by
  cases hq : s.q with
  | nil => simp [PCQ.popFn, hq] at h
  | cons a rest =>
    simp [PCQ.popFn, hq] at h
    rw [← h.2]
    simp [hq]

/-- A step preserves the capacity and preserves the invariant
`length ≤ max_size`. -/
theorem PCQ.step_invariant {T : Type} {s s' : PCQ T} (hs : PCQ.Step s s')
    (h : s.q.length ≤ s.max_size) :
    s'.q.length ≤ s'.max_size ∧ s'.max_size = s.max_size := by
  cases hs with
  | push x hp =>
    refine ⟨?_, rfl⟩
    have : s.q.length < s.max_size := by
      simpa [PCQ.canPush] using hp
    simpa [PCQ.push] using this
  | pop x t hp =>
    have hm := PCQ.popFn_max_size hp
    have hl := PCQ.popFn_length hp
    refine ⟨?_, hm⟩
    rw [hm]
    omega

/-- The invariant `length ≤ max_size` holds in every state reachable from the
empty queue, and the capacity never changes. -/
theorem PCQ.reachable_invariant {T : Type} {C : Nat} {s : PCQ T}
    (h : PCQ.Reachable ⟨[], C⟩ s) :
    s.q.length ≤ s.max_size ∧ s.max_size = C := by
  induction h with
  | refl => exact ⟨by simp, rfl⟩
  | tail _ hstep ih =>
    have := PCQ.step_invariant hstep ih.1
    exact ⟨this.1, this.2.trans ih.2⟩

theorem PCQ.pushList_q {T : Type} (xs : List T) (s : PCQ T) :
    PCQ.pushList s xs = ⟨s.q ++ xs, s.max_size⟩ := by
  induction xs generalizing s with
  | nil => simp [PCQ.pushList]
  | cons x xs ih =>
    simp only [PCQ.pushList]
    rw [ih (PCQ.push s x)]
    simp [PCQ.push]

theorem PCQ.popN_all {T : Type} (l : List T) (C : Nat) :
    PCQ.popN l.length ⟨l, C⟩ = (l, ⟨[], C⟩) := by
  induction l with
  | nil => simp [PCQ.popN]
  | cons x rest ih =>
    simp [PCQ.popN, PCQ.popFn, ih]

/-- C1: in every reachable state of a bounded channel of capacity `C > 0`
the stored sequence's length is at most `C`; when the length equals `C` the
wait predicate of `push` is false, so a push invoked there does not
complete; and once a pop removes an item from the full channel the wait
predicate becomes true again. -/
theorem C1_capacity_invariant {T : Type} (C : Nat) (hC : 0 < C) (s : PCQ T)
    (h : PCQ.Reachable ⟨[], C⟩ s) :
    s.q.length ≤ C ∧
    (s.q.length = C → PCQ.canPush s = false) ∧
    (∀ x s', PCQ.popFn s = some (x, s') → PCQ.canPush s' = true) := by
  obtain ⟨hlen, hcap⟩ := PCQ.reachable_invariant h
  refine ⟨hcap ▸ hlen, ?_, ?_⟩
  · intro hfull
    simp [PCQ.canPush, hcap, hfull]
  · intro x s' hp
    have hm := PCQ.popFn_max_size hp
    have hl := PCQ.popFn_length hp
    simp only [PCQ.canPush, hm, hcap, decide_eq_true_eq]
    omega

/-- C1 witness: the state `⟨[5], 1⟩` is reached from the empty capacity-1
channel by one completed push, and the invariant holds there. -/
theorem C1_capacity_invariant_witness :
    (⟨[5], 1⟩ : PCQ Nat).q.length ≤ 1 ∧
    ((⟨[5], 1⟩ : PCQ Nat).q.length = 1 →
      PCQ.canPush (⟨[5], 1⟩ : PCQ Nat) = false) ∧
    (∀ x s', PCQ.popFn (⟨[5], 1⟩ : PCQ Nat) = some (x, s') →
      PCQ.canPush s' = true) :=
  C1_capacity_invariant 1 (by decide) ⟨[5], 1⟩
    (Relation.ReflTransGen.single (PCQ.Step.push ⟨[], 1⟩ 5 (by decide)))

/-- C2: if `n` pushes `P1..Pn` all complete from the empty channel with no
interleaved pops, then `n` subsequent pops return exactly `P1..Pn` in that
order and leave the channel empty. -/
theorem C2_fifo {T : Type} (C : Nat) (xs : List T)
    (h : PCQ.pushesEnabled ⟨[], C⟩ xs = true) :
    PCQ.popN xs.length (PCQ.pushList ⟨[], C⟩ xs) = (xs, ⟨[], C⟩) := by
  rw [PCQ.pushList_q]
  simpa using PCQ.popN_all xs C

/-- C2 witness: pushing `[10, 20, 30]` into an empty capacity-5 channel and
popping three times returns `[10, 20, 30]`. -/
theorem C2_fifo_witness :
    PCQ.popN 3 (PCQ.pushList (⟨[], 5⟩ : PCQ Nat) [10, 20, 30]) =
      ([10, 20, 30], ⟨[], 5⟩) :=
  C2_fifo 5 [10, 20, 30] (by decide)

/-- C6 counterexample: on a channel constructed with capacity 0 the wait
predicate of `push`, `q_.size() < max_size_`, is already false on the empty
queue, so a push blocks instead of storing the item — capacity 0 is not
unbounded. -/
theorem C6_counterexample :
    PCQ.canPush (⟨[], 0⟩ : PCQ Nat) = false := by decide

/-- C6 amended: for every channel of capacity 0 the wait predicate of
`push` is false at every length, so a push can never proceed (it blocks
indefinitely); capacity 0 behaves as a zero-capacity channel, not an
unbounded one. -/
theorem C6_amended_capacity_zero_blocks {T : Type} (s : PCQ T)
    (h : s.max_size = 0) : PCQ.canPush s = false := by
  simp [PCQ.canPush, h]

/-- C6 amended witness: a capacity-0 channel already holding `[7]` still
cannot accept a push. -/
theorem C6_amended_capacity_zero_blocks_witness :
    PCQ.canPush (⟨[7], 0⟩ : PCQ Nat) = false :=
  C6_amended_capacity_zero_blocks ⟨[7], 0⟩ rfl

/-- C9: on a capacity-2 channel starting empty, push(1) and push(2) find
their wait predicate true and complete; push(3) then finds it false and
blocks; a pop returns 1 and makes the predicate true again so push(3) can
complete; the three pops overall return 1, 2, 3 in that order. -/
theorem C9_capacity_two_scenario :
    PCQ.canPush (⟨[], 2⟩ : PCQ Nat) = true ∧
    PCQ.push (⟨[], 2⟩ : PCQ Nat) 1 = ⟨[1], 2⟩ ∧
    PCQ.canPush (⟨[1], 2⟩ : PCQ Nat) = true ∧
    PCQ.push (⟨[1], 2⟩ : PCQ Nat) 2 = ⟨[1, 2], 2⟩ ∧
    PCQ.canPush (⟨[1, 2], 2⟩ : PCQ Nat) = false ∧
    PCQ.popFn (⟨[1, 2], 2⟩ : PCQ Nat) = some (1, ⟨[2], 2⟩) ∧
    PCQ.canPush (⟨[2], 2⟩ : PCQ Nat) = true ∧
    PCQ.push (⟨[2], 2⟩ : PCQ Nat) 3 = ⟨[2, 3], 2⟩ ∧
    PCQ.popFn (⟨[2, 3], 2⟩ : PCQ Nat) = some (2, ⟨[3], 2⟩) ∧
    PCQ.popFn (⟨[3], 2⟩ : PCQ Nat) = some (3, ⟨[], 2⟩) := by
  decide

/-! ### ThreadPool lemmas and claims -/

theorem ThreadPool.popK_drain {τ : Type} (items : List τ) (b : Bool) :
    ThreadPool.popK items.length ⟨items, b⟩ = (items, ⟨[], b⟩) := by
  induction items with
  | nil => simp [ThreadPool.popK]
  | cons t rest ih =>
    simp [ThreadPool.popK, ThreadPool.workerPop, ih]

/-- C3: a channel closed while holding `K` buffered items hands all `K`
items to the next `K` pops in insertion order; the pop after that fails
with `ClosedError`; and in general a pop fails with `ClosedError` exactly
when the channel is closed and its length is 0. -/
theorem C3_close_drains_then_fails {τ : Type} (items : List τ) :
    ThreadPool.popK items.length ⟨items, true⟩ = (items, ⟨[], true⟩) ∧
    ThreadPool.workerPop (⟨[], true⟩ : ThreadPool τ) =
      ThreadPool.PopResult.closed ∧
    (∀ s : ThreadPool τ,
      ThreadPool.workerPop s = ThreadPool.PopResult.closed ↔
        s.stop = true ∧ s.tasks = []) := by
  refine ⟨ThreadPool.popK_drain items true, rfl, ?_⟩
  intro s
  cases ht : s.tasks with
  | nil =>
    cases hs : s.stop <;> simp [ThreadPool.workerPop, ht, hs]
  | cons t rest =>
    simp [ThreadPool.workerPop, ht]

/-- C3 witness: closing with `[4, 5]` buffered, two pops return 4 then 5,
and the third observation is `closed`. -/
theorem C3_close_drains_then_fails_witness :
    ThreadPool.popK 2 (⟨[4, 5], true⟩ : ThreadPool Nat) =
      ([4, 5], ⟨[], true⟩) ∧
    (ThreadPool.workerPop (⟨[], true⟩ : ThreadPool Nat) =
        ThreadPool.PopResult.closed ↔
      (⟨[], true⟩ : ThreadPool Nat).stop = true ∧
        (⟨[], true⟩ : ThreadPool Nat).tasks = []) :=
  ⟨(C3_close_drains_then_fails [4, 5]).1,
    (C3_close_drains_then_fails ([] : List Nat)).2.2 ⟨[], true⟩⟩

/-- C4: pushing into a closed channel fails immediately with `ClosedError`
and leaves the stored sequence unchanged; in particular after `close`
(shutdown) every `enqueue`/`submit` returns `ClosedError` without blocking
(`enqueue` is a total function with no wait). -/
theorem C4_push_on_closed_fails {τ : Type} (s : ThreadPool τ) (f : τ) :
    ThreadPool.enqueue (ThreadPool.close s) f =
      (ThreadPool.close s, some PoolError.closed) ∧
    (s.stop = true →
      ThreadPool.enqueue s f = (s, some PoolError.closed)) := by
  constructor
  · simp [ThreadPool.enqueue, ThreadPool.close]
  · intro h
    simp [ThreadPool.enqueue, h]

/-- C4 witness: enqueueing 9 on the closed pool `⟨[1], true⟩` returns
`ClosedError` and the queue still holds `[1]`. -/
theorem C4_push_on_closed_fails_witness :
    ThreadPool.enqueue (ThreadPool.close (⟨[1], false⟩ : ThreadPool Nat)) 9 =
      (ThreadPool.close ⟨[1], false⟩, some PoolError.closed) ∧
    ThreadPool.enqueue (⟨[1], true⟩ : ThreadPool Nat) 9 =
      (⟨[1], true⟩, some PoolError.closed) :=
  ⟨(C4_push_on_closed_fails ⟨[1], false⟩ 9).1,
    (C4_push_on_closed_fails ⟨[1], true⟩ 9).2 rfl⟩

/-- A faulting task followed by a normal one, as run by a worker. -/
def faultyThenGood : List Task :=
  [fun _ => Except.error ⟨1⟩, fun _ => Except.ok ()]

/-- C5 counterexample: the worker executes `task();` with no try/catch
(line 52 of `src/unnamed/part_000`), so on the list [fault, ok] the fault
escapes the loop and only 1 of the 2 tasks is executed — the worker does
not continue to the next task. -/
theorem C5_counterexample :
    workerRun faultyThenGood = (1, some ⟨1⟩) ∧
    faultyThenGood.length = 2 :=
  ⟨rfl, rfl⟩

/-- C5 amended: a fault raised by a task body is not caught at the point of
execution; it propagates out of the worker loop, the worker terminates
after the faulting task, and the tasks after it are not processed: after a
prefix of normally completing tasks, a faulting task ends the run with
exactly that prefix plus itself executed and the fault escaping. -/
theorem C5_amended_fault_escapes_worker (pre : List Task) (e : Fault)
    (rest : List Task) (hpre : ∀ t ∈ pre, t () = Except.ok ()) :
    workerRun (pre ++ (fun _ => Except.error e) :: rest) =
      (pre.length + 1, some e) := by
  induction pre with
  | nil => rfl
  | cons t pre ih =>
    have ht : t () = Except.ok () := hpre t (by simp)
    have ih' := ih (fun u hu => hpre u (by simp [hu]))
    simp [workerRun, ht, ih']

/-- C5 amended witness: one good task then a faulting one — both run, the
fault escapes, a trailing task is never executed. -/
theorem C5_amended_fault_escapes_worker_witness :
    workerRun
        (([fun _ => Except.ok ()] : List Task) ++
          (fun _ => Except.error ⟨2⟩) :: ([fun _ => Except.ok ()] : List Task)) =
      (([fun _ => Except.ok ()] : List Task).length + 1, some ⟨2⟩) :=
  C5_amended_fault_escapes_worker [fun _ => Except.ok ()] ⟨2⟩
    [fun _ => Except.ok ()]
    (by intro t ht; rw [List.mem_singleton] at ht; subst ht; rfl)

/-- C7: the `stop` flag is monotonic and `close` is idempotent: `enqueue`
and a worker's pop never change `stop` (so never revert `true` to
`false`), `close` sets it to `true`, and closing an already-closed pool is
the identity on the state. -/
theorem C7_closed_monotone_idempotent {τ : Type} :
    (∀ (s : ThreadPool τ) (f : τ),
      ((ThreadPool.enqueue s f).1).stop = s.stop) ∧
    (∀ (s s' : ThreadPool τ) (t : τ),
      ThreadPool.workerPop s = ThreadPool.PopResult.item t s' →
        s'.stop = s.stop) ∧
    (∀ s : ThreadPool τ, (ThreadPool.close s).stop = true) ∧
    (∀ s : ThreadPool τ,
      ThreadPool.close (ThreadPool.close s) = ThreadPool.close s) := by
  refine ⟨?_, ?_, fun s => rfl, fun s => rfl⟩
  · intro s f
    by_cases h : s.stop <;> simp [ThreadPool.enqueue, h]
  · intro s s' t h
    cases ht : s.tasks with
    | nil =>
      cases hs : s.stop <;> simp [ThreadPool.workerPop, ht, hs] at h
    | cons a rest =>
      simp only [ThreadPool.workerPop, ht] at h
      cases h
      rfl

/-- C7 witness: a worker pop from the closed pool `⟨[3], true⟩` leaves the
flag equal (hence still `true`), and closing twice equals closing once. -/
theorem C7_closed_monotone_idempotent_witness :
    (⟨[], true⟩ : ThreadPool Nat).stop = (⟨[3], true⟩ : ThreadPool Nat).stop ∧
    ThreadPool.close (ThreadPool.close (⟨[], false⟩ : ThreadPool Nat)) =
      ThreadPool.close ⟨[], false⟩ :=
  ⟨(C7_closed_monotone_idempotent (τ := Nat)).2.1 ⟨[3], true⟩ ⟨[], true⟩ 3 rfl,
    (C7_closed_monotone_idempotent (τ := Nat)).2.2.2 ⟨[], false⟩⟩

theorem poolStepN_add {τ : Type} (a b : Nat) (s : PoolState τ) :
    poolStepN (a + b) s = poolStepN b (poolStepN a s) := by
  induction a generalizing s with
  | zero => simp [poolStepN]
  | succ a ih =>
    rw [Nat.succ_add]
    simp only [poolStepN]
    exact ih (poolStep s)

theorem poolStepN_drain {τ : Type} (fs : List τ) (live : Nat)
    (ex : List τ) :
    poolStepN fs.length ⟨⟨fs, true⟩, live, ex⟩ =
      ⟨⟨[], true⟩, live, ex ++ fs⟩ := by
  induction fs generalizing ex with
  | nil => simp [poolStepN]
  | cons f fs ih =>
    simp only [List.length_cons, poolStepN, poolStep, ThreadPool.workerPop]
    rw [ih (ex ++ [f])]
    simp

theorem poolStepN_exit {τ : Type} (k live : Nat) (ex : List τ) :
    poolStepN k ⟨⟨[], true⟩, live, ex⟩ = ⟨⟨[], true⟩, live - k, ex⟩ := by
  induction k generalizing live with
  | zero => simp [poolStepN]
  | succ k ih =>
    have h1 : poolStep (⟨⟨[], true⟩, live, ex⟩ : PoolState τ) =
        ⟨⟨[], true⟩, live - 1, ex⟩ := rfl
    simp only [poolStepN, h1, ih (live - 1)]
    congr 1
    omega

/-- C8: with `F = fs.length` tasks submitted and the pool then closed, the
`N` workers drain and execute exactly the tasks `fs`, each exactly once and
in order, then every worker observes `closed` and exits; after
`F + N` worker passes all tasks are executed and all `N` workers have
exited (`live = 0`, the point at which the joining destructor returns),
and after `F + k` passes exactly `N - k` workers remain live. -/
theorem C8_shutdown_terminates_workers {τ : Type} (fs : List τ) (N : Nat) :
    poolStepN (fs.length + N) ⟨⟨fs, true⟩, N, []⟩ = ⟨⟨[], true⟩, 0, fs⟩ ∧
    (∀ k : Nat,
      (poolStepN (fs.length + k) ⟨⟨fs, true⟩, N, []⟩).live = N - k) := by
  constructor
  · rw [poolStepN_add, poolStepN_drain]
    simp [poolStepN_exit]
  · intro k
    rw [poolStepN_add, poolStepN_drain]
    simp [poolStepN_exit]

/-! ### Mandelbrot claims -/

/-- Characterization of the escape-time loop: starting at index `i` with
`z = orbit c i` and `fuel` indices left, the loop either runs out of fuel
and returns `MAX_ITERATIONS` with no index in `[i, i + fuel)` escaping, or
returns some index `r ∈ [i, i + fuel)` at which the updated iterate
escaped. -/
theorem mandelAux_spec (c : QComplex) :
    ∀ (fuel i : Nat),
      (mandelAux c (QComplex.orbit c i) i fuel = MAX_ITERATIONS ∧
        ∀ j, i ≤ j → j < i + fuel →
          ¬ 4 < QComplex.normSq (QComplex.orbit c (j + 1))) ∨
      (i ≤ mandelAux c (QComplex.orbit c i) i fuel ∧
        mandelAux c (QComplex.orbit c i) i fuel < i + fuel ∧
        4 < QComplex.normSq
          (QComplex.orbit c (mandelAux c (QComplex.orbit c i) i fuel + 1))) := by
  intro fuel
  induction fuel with
  | zero =>
    intro i
    left
    refine ⟨rfl, ?_⟩
    intro j hj1 hj2
    exact absurd hj2 (by omega)
  | succ fuel ih =>
    intro i
    have hstep : mandelAux c (QComplex.orbit c i) i (fuel + 1) =
        if 4 < QComplex.normSq (QComplex.orbit c (i + 1)) then i
        else mandelAux c (QComplex.orbit c (i + 1)) (i + 1) fuel := rfl
    rw [hstep]
    by_cases hesc : 4 < QComplex.normSq (QComplex.orbit c (i + 1))
    · right
      rw [if_pos hesc]
      exact ⟨le_refl i, by omega, hesc⟩
    · rw [if_neg hesc]
      rcases ih (i + 1) with ⟨hmax, hno⟩ | ⟨h1, h2, h3⟩
      · left
        refine ⟨hmax, ?_⟩
        intro j hj1 hj2
        rcases Nat.eq_or_lt_of_le hj1 with rfl | hj
        · exact hesc
        · exact hno j hj (by omega)
      · right
        exact ⟨by omega, by omega, h3⟩

/-- C10: for every input `c`, `mandelbrotIterations c` is a value `n` with
`0 ≤ n ≤ MAX_ITERATIONS` (the loop runs at most `MAX_ITERATIONS = 100`
iterations); it is strictly less than `MAX_ITERATIONS` only when the
iterate's squared magnitude exceeded 4 (i.e. `abs(z) > 2.0`) at that step,
and it is exactly `MAX_ITERATIONS` precisely when no step of the loop
escaped. -/
theorem C10_mandelbrot_iterations_range (c : QComplex) :
    mandelbrotIterations c ≤ MAX_ITERATIONS ∧
    (mandelbrotIterations c < MAX_ITERATIONS →
      4 < QComplex.normSq (QComplex.orbit c (mandelbrotIterations c + 1))) ∧
    (mandelbrotIterations c = MAX_ITERATIONS →
      ∀ i, i < MAX_ITERATIONS →
        ¬ 4 < QComplex.normSq (QComplex.orbit c (i + 1))) := by
  have h0 : mandelbrotIterations c =
      mandelAux c (QComplex.orbit c 0) 0 MAX_ITERATIONS := rfl
  rcases mandelAux_spec c MAX_ITERATIONS 0 with ⟨hmax, hno⟩ | ⟨h1, h2, h3⟩
  · rw [h0, hmax]
    refine ⟨le_refl _, ?_, ?_⟩
    · intro hlt
      exact absurd hlt (lt_irrefl _)
    · intro _ i hi
      exact hno i (Nat.zero_le i) (by omega)
  · rw [h0]
    refine ⟨by omega, fun _ => h3, ?_⟩
    intro heq
    exact absurd heq (by omega)

/-- C10 witness: at `c = 3` the first updated iterate is `3`, whose squared
magnitude `9` exceeds 4, and indeed the returned index is below the cap and
marks an escaping step. -/
theorem C10_mandelbrot_iterations_range_witness :
    4 < QComplex.normSq
      (QComplex.orbit ⟨3, 0⟩ (mandelbrotIterations ⟨3, 0⟩ + 1)) :=
  (C10_mandelbrot_iterations_range ⟨3, 0⟩).2.1 (by
    have hcond : 4 < QComplex.normSq (QComplex.step ⟨3, 0⟩ ⟨0, 0⟩) := by
      norm_num [QComplex.step, QComplex.mul, QComplex.add, QComplex.normSq]
    have hstep : mandelbrotIterations ⟨3, 0⟩ =
        if 4 < QComplex.normSq (QComplex.step ⟨3, 0⟩ ⟨0, 0⟩) then 0
        else mandelAux ⟨3, 0⟩ (QComplex.step ⟨3, 0⟩ ⟨0, 0⟩) 1 99 := rfl
    rw [hstep, if_pos hcond]
    decide)

end DevCatalyst
